import Mathlib

/-!
Verification of the libvmaf feature-name canonicalization core
(`src/libvmaf/src/feature/feature_name.c`).

The C source is shallowly embedded below.  Pure string computation is
modelled with Lean `String`/`List Char`; C `double` values are modelled as
exact rationals (`Dbl`), since the only operations the source performs on
them are exact `==` comparison and `%g` formatting; fallible allocation
(`malloc`, `vmaf_dictionary_set`) is modelled by an explicit oracle: a list
of `Bool` outcomes consumed one per fallible call (an empty list means every
remaining allocation succeeds).

External collaborators that are declared but not defined in the embedded
source (`dict.c`, `alias.c`, `feature_name.h`, libc `snprintf`) are modelled
from the specification, as marked in their doc comments.
-/

/-- Model of a finite C `double` as an exact rational `num / den`
(`den` is meant to be positive).  Every finite binary floating-point value
is such a rational, and the source only compares doubles with exact `==`
and renders them with `%g`, both of which are functions of the exact
rational value. -/
structure Dbl where
  num : Int
  den : Nat
deriving DecidableEq

/-- Exact equality of two `Dbl` values (the C `==` on doubles, for finite
values): cross multiplication, no tolerance. -/
def dblEq (a b : Dbl) : Bool :=
  decide (a.num * (b.den : Int) = b.num * (a.den : Int))

/-- Number of decimal digits of a natural number. -/
def numDigitsN (n : Nat) : Nat := (Nat.toDigits 10 n).length

/-- Drop trailing `'0'` characters (the `%g` suppression of trailing
zeros in the significand). -/
def stripZeros (ds : List Char) : List Char :=
  (ds.reverse.dropWhile (fun c => c = '0')).reverse

/-- Exponent digits of `%g`: printed with at least two digits. -/
def expDigits (e : Nat) : String :=
  if e < 10 then "0" ++ Nat.repr e else Nat.repr e

/-- `floor (log10 (n / d))` for `n ≥ 1`, `d ≥ 1`, by bounded search. -/
def floorLog10 (n d : Nat) : Int :=
  if d ≤ n then
    match (List.range (numDigitsN n + 1)).reverse.find? (fun k => 10 ^ k * d ≤ n) with
    | some k => (k : Int)
    | none => 0
  else
    match (List.range (numDigitsN d + 1)).find? (fun j => d ≤ n * 10 ^ (j + 1)) with
    | some j => -((j : Int) + 1)
    | none => 0

/-- Round `p / q` (`q ≥ 1`) to the nearest natural, ties to even. -/
def roundHalfEvenN (p q : Nat) : Nat :=
  let m := p / q
  let r := p % q
  if 2 * r < q then m
  else if q < 2 * r then m + 1
  else if m % 2 = 0 then m else m + 1

/-- Six-significant-digit decimal significand (in `[10^5, 10^6)`) and
decimal exponent of `n / d` (`n, d ≥ 1`). -/
def sigAndExp (n d : Nat) : Nat × Int :=
  let e := floorLog10 n d
  let m := if 0 ≤ 5 - e then roundHalfEvenN (n * 10 ^ (5 - e).toNat) d
           else roundHalfEvenN n (d * 10 ^ (e - 5).toNat)
  if m = 1000000 then (100000, e + 1) else (m, e)

/-- Positional (non-scientific) `%g` layout of significand digits `ds`
with decimal exponent `e`. -/
def fixedG (sign : String) (ds : List Char) (e : Int) : String :=
  if 0 ≤ e then
    let k := e.toNat + 1
    if ds.length ≤ k then
      sign ++ String.mk ds ++ String.mk (List.replicate (k - ds.length) '0')
    else sign ++ String.mk (ds.take k) ++ "." ++ String.mk (ds.drop k)
  else sign ++ "0." ++ String.mk (List.replicate ((-e).toNat - 1) '0') ++ String.mk ds

/-- Scientific `%g` layout of significand digits `ds` with decimal
exponent `e`. -/
def sciG (sign : String) (ds : List Char) (e : Int) : String :=
  let head := String.mk (ds.take 1)
  let tail := if ds.length ≤ 1 then "" else "." ++ String.mk (ds.drop 1)
  let es := if e < 0 then "-" else "+"
  sign ++ head ++ tail ++ "e" ++ es ++ expDigits e.natAbs

/-- Modelled from the spec: libc `snprintf` `%g` rendering ("minimal
decimal representation, general floating-point formatting") of an exact
`Dbl` value — default precision 6 significant digits, trailing zeros
stripped, positional form for decimal exponents in `[-4, 5]` and
scientific form otherwise, as C's `%g` behaves on these values. -/
def fmtG (q : Dbl) : String :=
  if q.num = 0 then "0"
  else
    let sign := if q.num < 0 then "-" else ""
    let me := sigAndExp q.num.natAbs q.den
    let ds := stripZeros (Nat.toDigits 10 me.1)
    if -4 ≤ me.2 ∧ me.2 < 6 then fixedG sign ds me.2 else sciG sign ds me.2

/-- Truncation of a string to its first `n` characters: the effect of a
bounded `snprintf`-family write of capacity `n + 1` into a zeroed buffer. -/
def strTake (n : Nat) (s : String) : String := String.mk (s.data.take n)

/-- The value kinds of `VmafOptionType` used by this core
(`VMAF_OPT_TYPE_BOOL`, `VMAF_OPT_TYPE_INT`, `VMAF_OPT_TYPE_DOUBLE`). -/
inductive VmafOptType where
  | bool
  | int
  | double
deriving DecidableEq

/-- A parameter descriptor (`VmafOption`): canonical name (`none` models a
NULL name, the array sentinel), optional short alias, the
`VMAF_OPT_FLAG_FEATURE_PARAM` bit of `flags` (naming relevance), byte
offset of the field inside a configuration object, value kind, and the
declared default, one field per union arm of `default_val`. -/
structure VmafOption where
  name : Option String
  optAlias : Option String
  featureParam : Bool
  offset : Nat
  type : VmafOptType
  default_b : Bool
  default_i : Int
  default_d : Dbl
deriving DecidableEq

/-- An opaque, externally owned configuration object: reading the field of
a given kind at a given byte offset (`*(bool*)((uint8_t*)obj + offset)`
and its `int`/`double` analogues). -/
structure ConfigObj where
  readBool : Nat → Bool
  readInt : Nat → Int
  readDouble : Nat → Dbl

/-- The static alias table `alias_list` of `feature_name.c`. -/
def alias_list : List (String × String) :=
  [("motion_force_zero", "force"),
   ("adm_enhn_gain_limit", "egl"),
   ("vif_enhn_gain_limit", "egl"),
   ("adm_norm_view_dist", "nvd"),
   ("adm_ref_display_height", "rdh")]

/-- `key_alias`: first `alias_list` entry whose name equals `key`, `none`
when there is no match (the C function returns `NULL`). -/
def key_alias (key : String) : Option String :=
  (alias_list.find? (fun e => e.1 = key)).map (fun e => e.2)

/-- Modelled from the spec: the fixed compiled-in bound
`VMAF_FEATURE_NAME_DEFAULT_BUFFER_SIZE` declared in `feature_name.h`
("Maximum name length: a fixed compiled-in bound"). -/
def VMAF_FEATURE_NAME_DEFAULT_BUFFER_SIZE : Nat := 256

/-- `vmaf_feature_name`: the Single-Key Formatter.  Takes the external
base-name alias resolver `fa` (`vmaf_feature_name_alias`, an external
collaborator, hence a parameter), the base `name`, an optional `key` (a C
pointer that may be NULL), the value, the current contents of the caller's
buffer, and the buffer capacity `buf_sz`.  Returns the pair (returned
string, buffer contents after the call): on the short-circuit paths the
buffer is untouched and `name` is returned; otherwise the buffer is
overwritten by `snprintf(buf, buf_sz - 1, "%s_%s_%g", ...)` — capacity
argument `buf_sz - 1`, hence at most `buf_sz - 2` visible characters —
and the buffer is returned. -/
def vmaf_feature_name (fa : String → String) (name : String)
    (key : Option String) (val : Dbl) (buf : String) (buf_sz : Nat) :
    String × String :=
  match key with
  | none => (name, buf)
  | some k =>
    match key_alias k with
    | none => (name, buf)
    | some a =>
      let s := strTake (buf_sz - 2) (fa name ++ "_" ++ a ++ "_" ++ fmtG val)
      (s, s)

/-- The transient key/value store (`VmafDictionary` of `dict.h`): an
ordered list of (key, value) string pairs. -/
abbrev VmafDict : Type := List (String × String)

/-- Modelled from the spec: the key/value store collaborator's
`set(key, value) -> ok | error` (`vmaf_dictionary_set` of `dict.c`).  The
C call takes `VmafDictionary **`, allocating the dictionary on first
insertion (so a never-inserted dictionary pointer stays NULL, modelled by
`Option`), and appends the pair to the ordered store; it can fail with an
allocation error, modelled by consuming one oracle entry.  Returns
(`none` on failure, otherwise the updated dictionary) and the remaining
oracle. -/
def vmaf_dictionary_set (alloc : List Bool) (dict : Option VmafDict)
    (key v : String) : Option (Option VmafDict) × List Bool :=
  match alloc with
  | [] => (some (some ((dict.getD []) ++ [(key, v)])), [])
  | ok :: rest =>
    (if ok then some (some ((dict.getD []) ++ [(key, v)])) else none, rest)

/-- Modelled from the spec: a `malloc`-backed string copy that may fail
("allocation failure condition if the copy cannot be made"), consuming one
oracle entry. -/
def mallocCopy (alloc : List Bool) (s : String) : Option String × List Bool :=
  match alloc with
  | [] => (some s, [])
  | ok :: rest => (if ok then some s else none, rest)

/-- The descriptors actually scanned by the option loops of
`feature_name.c`: the `for (i = 0; (opt = &opts[i]); i++)` loops stop at
the first descriptor whose `name` is NULL (the sentinel). -/
def opts_scan (opts : List VmafOption) : List VmafOption :=
  opts.takeWhile (fun o => o.name.isSome)

/-- The `"_%s_%s"` segments appended for one descriptor `o` by the inner
loop of `vmaf_feature_name_from_opts_dict`: one segment per dictionary
entry whose key equals `o`'s name, provided `o` carries the
`VMAF_OPT_FLAG_FEATURE_PARAM` flag, using `o`'s alias when present and its
name otherwise. -/
def opt_dict_segment (o : VmafOption) (d : VmafDict) : String :=
  String.join (d.filterMap (fun e =>
    if o.name = some e.1 ∧ o.featureParam = true then
      some ("_" ++ (o.optAlias.getD (o.name.getD "")) ++ "_" ++ e.2)
    else none))

/-- The full string accumulated in the stack buffer of
`vmaf_feature_name_from_opts_dict` before truncation, on the branch where
both `opts` and `opts_dict` are present: the base name's display alias
followed by the declaration-order segments. -/
def composed_body (fa : String → String) (name : String)
    (opts : List VmafOption) (d : VmafDict) : String :=
  fa name ++ String.join ((opts_scan opts).map (fun o => opt_dict_segment o d))

/-- `vmaf_feature_name_from_opts_dict`: the Dictionary Composer.  `opts`
and `opts_dict` are C pointers that may be NULL (`none`).  The stack
buffer accumulates, via `snprintfcat` with capacity
`VMAF_FEATURE_NAME_DEFAULT_BUFFER_SIZE`, either `name` alone (when either
pointer is NULL) or the aliased base name plus declaration-order
segments; the accumulated string is truncated to at most
`VMAF_FEATURE_NAME_DEFAULT_BUFFER_SIZE - 1` characters, then copied into
a `malloc`ed string (NULL on allocation failure). -/
def vmaf_feature_name_from_opts_dict (fa : String → String) (name : String)
    (opts : Option (List VmafOption)) (opts_dict : Option VmafDict)
    (alloc : List Bool) : Option String × List Bool :=
  let buf : String :=
    match opts, opts_dict with
    | some os, some d =>
      strTake (VMAF_FEATURE_NAME_DEFAULT_BUFFER_SIZE - 1) (composed_body fa name os d)
    | _, _ => strTake (VMAF_FEATURE_NAME_DEFAULT_BUFFER_SIZE - 1) name
  mallocCopy alloc buf

/-- `option_is_default`: compares the configuration field addressed by the
descriptor's offset against the descriptor's declared default, with exact
equality for the matching kind.  (The C function's `-EINVAL` arms for NULL
arguments are unreachable from the embedded callers, which pass the
address of an array element and a non-NULL object.) -/
def option_is_default (opt : VmafOption) (obj : ConfigObj) : Bool :=
  match opt.type with
  | .bool => opt.default_b == obj.readBool opt.offset
  | .int => opt.default_i == obj.readInt opt.offset
  | .double => dblEq opt.default_d (obj.readDouble opt.offset)

/-- The textual rendering of a non-default field performed by
`vmaf_feature_name_from_options`: `"%d"` on the `bool` (`0`/`1`), `"%d"`
on the `int`, `"%g"` on the `double`, written with `snprintf` of capacity
`VMAF_FEATURE_NAME_DEFAULT_BUFFER_SIZE` (hence truncated to at most one
less than that). -/
def render_value (opt : VmafOption) (obj : ConfigObj) : String :=
  strTake (VMAF_FEATURE_NAME_DEFAULT_BUFFER_SIZE - 1)
    (match opt.type with
     | .bool => if obj.readBool opt.offset then "1" else "0"
     | .int => (obj.readInt opt.offset).repr
     | .double => fmtG (obj.readDouble opt.offset))

/-- The descriptor-scanning loop of `vmaf_feature_name_from_options`:
stops at the sentinel, skips descriptors without the feature-param flag,
skips fields equal to their default, renders the rest and inserts them
into the dictionary; an insertion failure aborts the whole scan (`goto
exit` with a NULL output).  Returns (`none` on abort, otherwise the final
dictionary pointer) and the remaining allocation oracle. -/
def extract_loop (obj : ConfigObj) : List VmafOption → Option VmafDict →
    List Bool → Option (Option VmafDict) × List Bool
  | [], dict, alloc => (some dict, alloc)
  | opt :: rest, dict, alloc =>
    match opt.name with
    | none => (some dict, alloc)
    | some nm =>
      if opt.featureParam = true then
        if option_is_default opt obj = true then extract_loop obj rest dict alloc
        else
          match vmaf_dictionary_set alloc dict nm (render_value opt obj) with
          | (none, rest') => (none, rest')
          | (some dict', rest') => extract_loop obj rest dict' rest'
      else extract_loop obj rest dict alloc

/-- `vmaf_feature_name_from_options`: the Introspector followed by the
Composer.  `name`, `opts` and `obj` are C pointers that may be NULL; a
NULL among them returns NULL immediately.  Otherwise the scan builds the
dictionary (NULL if nothing was inserted), an aborted scan returns NULL,
and a completed scan hands the dictionary to
`vmaf_feature_name_from_opts_dict`. -/
def vmaf_feature_name_from_options (fa : String → String)
    (name : Option String) (opts : Option (List VmafOption))
    (obj : Option ConfigObj) (alloc : List Bool) : Option String × List Bool :=
  match name, opts, obj with
  | some nm, some os, some o =>
    match extract_loop o os none alloc with
    | (none, rest) => (none, rest)
    | (some dict, rest) => vmaf_feature_name_from_opts_dict fa nm (some os) dict rest
  | _, _, _ => (none, alloc)

/-- `EINVAL` of `errno.h` (Linux value 22). -/
def EINVAL : Int := 22

/-- Result of `vmaf_feature_name_dict_from_provided_features`, which is
declared to return `VmafDictionary *` but on failure returns the integer
`-EINVAL` coerced into the pointer slot: `ok` is a genuine dictionary
pointer (NULL when no insertion happened), `errPtr` is the coerced error
code. -/
inductive BatchResult where
  | ok (d : Option VmafDict)
  | errPtr (code : Int)
deriving DecidableEq

/-- The per-metric loop of `vmaf_feature_name_dict_from_provided_features`:
for each provided feature name, run `vmaf_feature_name_from_options`; a
NULL result jumps to the failure exit; otherwise insert
(feature name, canonical name) into the result dictionary, an insertion
error also jumping to the failure exit.  The failure exit frees the
partial dictionary and returns `-EINVAL` in the pointer slot. -/
def batch_loop (fa : String → String) (opts : Option (List VmafOption))
    (obj : Option ConfigObj) : List String → Option VmafDict → List Bool →
    BatchResult
  | [], dict, _ => .ok dict
  | f :: rest, dict, alloc =>
    match vmaf_feature_name_from_options fa (some f) opts obj alloc with
    | (none, _) => .errPtr (-EINVAL)
    | (some fn, alloc') =>
      match vmaf_dictionary_set alloc' dict f fn with
      | (none, _) => .errPtr (-EINVAL)
      | (some dict', alloc'') => batch_loop fa opts obj rest dict' alloc''

/-- `vmaf_feature_name_dict_from_provided_features`: the Batch Map
Builder over a NULL-terminated list of provided feature names. -/
def vmaf_feature_name_dict_from_provided_features (fa : String → String)
    (provided_features : List String) (opts : Option (List VmafOption))
    (obj : Option ConfigObj) (alloc : List Bool) : BatchResult :=
  batch_loop fa opts obj provided_features none alloc

/-- The pure value of a completed, failure-free scan: the (name, rendered
value) pairs of the naming-relevant, non-default descriptors before the
sentinel, in declaration order. -/
def extract_pure (obj : ConfigObj) : List VmafOption → VmafDict
  | [] => []
  | o :: rest =>
    match o.name with
    | none => []
    | some nm =>
      if o.featureParam = true ∧ ¬ option_is_default o obj = true then
        (nm, render_value o obj) :: extract_pure obj rest
      else extract_pure obj rest

/-- A dictionary pointer after appending the entries `l` in order: still
NULL when nothing was ever inserted. -/
def dict_app (dict : Option VmafDict) (l : VmafDict) : Option VmafDict :=
  if l = [] then dict else some (dict.getD [] ++ l)

/-- The keys of a (possibly NULL) dictionary, in order. -/
def dictKeys (d : Option VmafDict) : List String := (d.getD []).map Prod.fst

/-- A concrete base-name alias resolver with a non-trivial entry. -/
def toyAlias : String → String := fun s => if s = "adm" then "A" else s

/-- The identity base-name alias resolver (every metric self-aliased). -/
def idAlias : String → String := fun s => s

/-- The `adm_enhn_gain_limit` descriptor of the spec's examples: alias
`egl`, double kind, default `1.0`, naming-relevant. -/
def eglOpt : VmafOption :=
  ⟨some "adm_enhn_gain_limit", some "egl", true, 0, .double, false, 0, ⟨1, 1⟩⟩

/-- The `adm_norm_view_dist` descriptor: alias `nvd`, double kind,
default `3.0`, naming-relevant. -/
def nvdOpt : VmafOption :=
  ⟨some "adm_norm_view_dist", some "nvd", true, 8, .double, false, 0, ⟨3, 1⟩⟩

/-- A configuration object with every field at the defaults of the
descriptors above. -/
def defaultObj : ConfigObj := ⟨fun _ => false, fun _ => 0, fun _ => ⟨1, 1⟩⟩

/-- A configuration object whose double fields all read `1.5`. -/
def gainObj : ConfigObj := ⟨fun _ => false, fun _ => 0, fun _ => ⟨3, 2⟩⟩

theorem strTake_of_le {n : Nat} {s : String} (h : s.length ≤ n) : strTake n s = s := by
  cases s with
  | mk data => exact congrArg String.mk (List.take_of_length_le h)

theorem length_strTake (n : Nat) (s : String) : (strTake n s).length = min n s.length := by
  cases s with
  | mk data => exact List.length_take n data

/-- C3: when `key` is NULL or is not in the alias table, the Single-Key
Formatter returns `name` unchanged and leaves the caller's buffer
untouched. -/
theorem unknown_key_returns_base_name (fa : String → String) (name : String)
    (key : Option String) (val : Dbl) (buf : String) (sz : Nat)
    (h : key = none ∨ ∃ k, key = some k ∧ key_alias k = none) :
    vmaf_feature_name fa name key val buf sz = (name, buf) := by
  rcases h with h | ⟨k, hk, ha⟩
  · subst h; rfl
  · subst hk; simp [vmaf_feature_name, ha]

theorem unknown_key_returns_base_name_witness :
    (key_alias "zzz" = none) ∧
    vmaf_feature_name idAlias "adm" (some "zzz") ⟨1, 1⟩ "b" 256 = ("adm", "b") :=
  ⟨by decide,
   unknown_key_returns_base_name idAlias "adm" (some "zzz") ⟨1, 1⟩ "b" 256
     (Or.inr ⟨"zzz", rfl, by decide⟩)⟩

/-- C4: when `key` is in the alias table and the composition fits the
buffer, the Single-Key Formatter writes
`"{aliasedBase}_{alias(key)}_{%g(val)}"` into the buffer and returns it. -/
theorem known_key_formats_name (fa : String → String) (name k a : String)
    (val : Dbl) (buf : String) (sz : Nat) (hk : key_alias k = some a)
    (hfit : (fa name ++ "_" ++ a ++ "_" ++ fmtG val).length ≤ sz - 2) :
    vmaf_feature_name fa name (some k) val buf sz =
      (fa name ++ "_" ++ a ++ "_" ++ fmtG val,
       fa name ++ "_" ++ a ++ "_" ++ fmtG val) := by
  simp [vmaf_feature_name, hk, strTake_of_le hfit]

theorem known_key_formats_name_witness :
    (key_alias "motion_force_zero" = some "force") ∧ fmtG ⟨1, 1⟩ = "1" ∧
    vmaf_feature_name idAlias "adm" (some "motion_force_zero") ⟨1, 1⟩ "" 256 =
      ("adm_force_1", "adm_force_1") :=
  ⟨by decide, by decide,
   (known_key_formats_name idAlias "adm" "motion_force_zero" "force" ⟨1, 1⟩ "" 256
      (by decide) (by decide)).trans (by decide)⟩

/-- C10: a NULL base name makes `vmaf_feature_name_from_options` return
NULL at once, for every descriptor array and configuration pointer,
without consuming any allocation (the oracle comes back untouched). -/
theorem from_options_requires_name (fa : String → String)
    (opts : Option (List VmafOption)) (obj : Option ConfigObj)
    (alloc : List Bool) :
    vmaf_feature_name_from_options fa none opts obj alloc = (none, alloc) := by
  cases opts <;> cases obj <;> rfl

/-- C2 counterexample: with capacity 8 and composed string `"x_force_1"`
(9 visible characters, so it exceeds the buffer), the Single-Key Formatter
returns 6 visible characters, not the `maxLen - 1 = 7` the claim states:
the `snprintf` call is given capacity `buf_sz - 1`, one less than the
buffer. -/
theorem single_key_truncation_counterexample :
    ("x_force_1".length > 8) ∧
    (vmaf_feature_name idAlias "x" (some "motion_force_zero") ⟨1, 1⟩ "" 8).1 = "x_forc" ∧
    ¬ (vmaf_feature_name idAlias "x" (some "motion_force_zero") ⟨1, 1⟩ "" 8).1.length = 8 - 1 := by
  refine ⟨by decide, by decide, by decide⟩

/-- C2 amended: when the composed string reaches or exceeds the capacity
`sz`, the Single-Key Formatter returns exactly `sz - 2` visible
characters (a prefix of the composition), which together with the
terminator never exceeds the buffer. -/
theorem single_key_truncation_length (fa : String → String) (name k a : String)
    (val : Dbl) (buf : String) (sz : Nat) (hk : key_alias k = some a)
    (hsz : 1 ≤ sz)
    (hlong : sz ≤ (fa name ++ "_" ++ a ++ "_" ++ fmtG val).length) :
    (vmaf_feature_name fa name (some k) val buf sz).1.length = sz - 2 ∧
    (vmaf_feature_name fa name (some k) val buf sz).1 =
      strTake (sz - 2) (fa name ++ "_" ++ a ++ "_" ++ fmtG val) ∧
    (vmaf_feature_name fa name (some k) val buf sz).1.length + 1 ≤ sz := by
  have hlen : (vmaf_feature_name fa name (some k) val buf sz).1.length = sz - 2 := by
    simp only [vmaf_feature_name, hk, length_strTake]
    exact Nat.min_eq_left (le_trans (Nat.sub_le sz 2) hlong)
  refine ⟨hlen, by simp [vmaf_feature_name, hk], ?_⟩
  rw [hlen]
  omega

theorem single_key_truncation_length_witness :
    (key_alias "motion_force_zero" = some "force") ∧ (1 ≤ 8) ∧
    (8 ≤ ("x_force_1" : String).length) ∧
    (vmaf_feature_name idAlias "x" (some "motion_force_zero") ⟨1, 1⟩ "" 8).1.length = 8 - 2 :=
  ⟨by decide, by decide, by decide,
   (single_key_truncation_length idAlias "x" "motion_force_zero" "force" ⟨1, 1⟩ "" 8
      (by decide) (by decide) (by decide)).1⟩

/-- C8: an insertion failure during the descriptor scan makes
`vmaf_feature_name_from_options` return NULL: the composer is never
reached and no partial canonical name is produced. -/
theorem extract_insert_failure_aborts (fa : String → String) (name : String)
    (opts : List VmafOption) (obj : ConfigObj) (alloc rest : List Bool)
    (hfail : extract_loop obj opts none alloc = (none, rest)) :
    vmaf_feature_name_from_options fa (some name) (some opts) (some obj) alloc =
      (none, rest) := by
  simp [vmaf_feature_name_from_options, hfail]

theorem extract_insert_failure_aborts_witness :
    (extract_loop gainObj [eglOpt] none [false] = (none, [])) ∧
    vmaf_feature_name_from_options idAlias (some "adm") (some [eglOpt])
      (some gainObj) [false] = (none, []) :=
  ⟨by decide,
   extract_insert_failure_aborts idAlias "adm" [eglOpt] gainObj [false] [] (by decide)⟩

set_option maxRecDepth 8000 in
/-- C7 counterexample: with the descriptor array absent and a 256-character
base name, the Dictionary Composer does not return the base name verbatim:
the stack buffer truncates it to 255 characters. -/
theorem compose_absent_inputs_counterexample :
    (vmaf_feature_name_from_opts_dict idAlias (String.mk (List.replicate 256 'a'))
        none none []).1 ≠ some (String.mk (List.replicate 256 'a')) := by
  decide

/-- C7 amended: when the descriptor array or the dictionary is absent and
the base name fits the compiled-in buffer bound (at most 255 characters),
the Composer reports no error and returns the base name verbatim as a new
string, for a successful allocation. -/
theorem compose_absent_inputs_identity (fa : String → String) (name : String)
    (opts : Option (List VmafOption)) (od : Option VmafDict)
    (habs : opts = none ∨ od = none)
    (hlen : name.length ≤ VMAF_FEATURE_NAME_DEFAULT_BUFFER_SIZE - 1) :
    vmaf_feature_name_from_opts_dict fa name opts od [] = (some name, []) := by
  rcases habs with h | h
  · subst h
    cases od <;>
      simp [vmaf_feature_name_from_opts_dict, mallocCopy, strTake_of_le hlen]
  · subst h
    cases opts <;>
      simp [vmaf_feature_name_from_opts_dict, mallocCopy, strTake_of_le hlen]

theorem compose_absent_inputs_identity_witness :
    (("motion" : String).length ≤ VMAF_FEATURE_NAME_DEFAULT_BUFFER_SIZE - 1) ∧
    vmaf_feature_name_from_opts_dict idAlias "motion" none (some [("a", "1")]) [] =
      (some "motion", []) :=
  ⟨by decide,
   compose_absent_inputs_identity idAlias "motion" none (some [("a", "1")])
     (Or.inl rfl) (by decide)⟩

theorem dict_app_snoc (dict : Option VmafDict) (p : String × String) (l : VmafDict) :
    dict_app (some ((dict.getD []) ++ [p])) l = dict_app dict (p :: l) := by
  cases l <;> simp [dict_app]

theorem extract_loop_ok (obj : ConfigObj) :
    ∀ (opts : List VmafOption) (dict : Option VmafDict),
    extract_loop obj opts dict [] = (some (dict_app dict (extract_pure obj opts)), []) := by
  intro opts
  induction opts with
  | nil => intro dict; simp [extract_loop, extract_pure, dict_app]
  | cons opt rest ih =>
    intro dict
    cases ho : opt.name with
    | none => simp [extract_loop, extract_pure, ho, dict_app]
    | some nm =>
      cases hfp : opt.featureParam with
      | false => simp [extract_loop, extract_pure, ho, hfp, ih]
      | true =>
        cases hdef : option_is_default opt obj with
        | true => simp [extract_loop, extract_pure, ho, hfp, hdef, ih]
        | false =>
          simp [extract_loop, extract_pure, ho, hfp, hdef, vmaf_dictionary_set,
                ih, dict_app_snoc]

theorem extract_pure_nil_of_default (obj : ConfigObj) :
    ∀ (l : List VmafOption),
    (∀ o ∈ l, o.featureParam = true → option_is_default o obj = true) →
    extract_pure obj l = [] := by
  intro l
  induction l with
  | nil => intro; rfl
  | cons o rest ih =>
    intro h
    have hrest := fun o' ho' => h o' (List.mem_cons_of_mem _ ho')
    cases ho : o.name with
    | none => simp [extract_pure, ho]
    | some nm =>
      have hc : ¬ (o.featureParam = true ∧ ¬ option_is_default o obj = true) := by
        rintro ⟨h1, h2⟩
        exact h2 (h o (List.mem_cons_self o rest) h1)
      simp only [extract_pure, ho, if_neg hc]
      exact ih hrest

/-- C1 counterexample: on an all-default configuration,
`vmaf_feature_name_from_options` returns the base name itself, not the
base name's display alias: with an alias resolver mapping `"adm"` to
`"A"`, the result is `"adm"`, not `"A"` — the all-default path never
consults the alias resolver. -/
theorem all_default_composition_not_aliased_counterexample :
    (toyAlias "adm" = "A") ∧
    vmaf_feature_name_from_options toyAlias (some "adm") (some [eglOpt])
      (some defaultObj) [] = (some "adm", []) ∧
    (vmaf_feature_name_from_options toyAlias (some "adm") (some [eglOpt])
      (some defaultObj) []).1 ≠ some (toyAlias "adm") := by
  refine ⟨by decide, by decide, by decide⟩

/-- C1 amended: on a configuration in which every naming-relevant
descriptor reads its declared default, `vmaf_feature_name_from_options`
returns the base name itself, verbatim, unchanged by any descriptor (the
display alias is not applied on this path, because no insertion ever
allocates the dictionary and the composer takes its NULL-dictionary
fallback). -/
theorem all_default_composition_yields_base_name (fa : String → String)
    (name : String) (opts : List VmafOption) (obj : ConfigObj)
    (hdef : ∀ o ∈ opts, o.featureParam = true → option_is_default o obj = true)
    (hlen : name.length ≤ VMAF_FEATURE_NAME_DEFAULT_BUFFER_SIZE - 1) :
    vmaf_feature_name_from_options fa (some name) (some opts) (some obj) [] =
      (some name, []) := by
  have hloop := extract_loop_ok obj opts none
  rw [extract_pure_nil_of_default obj opts hdef] at hloop
  simp only [dict_app, if_pos rfl] at hloop
  simp [vmaf_feature_name_from_options, hloop, vmaf_feature_name_from_opts_dict,
        mallocCopy, strTake_of_le hlen]

theorem all_default_composition_yields_base_name_witness :
    (∀ o ∈ [eglOpt], o.featureParam = true →
      option_is_default o defaultObj = true) ∧
    vmaf_feature_name_from_options idAlias (some "adm") (some [eglOpt])
      (some defaultObj) [] = (some "adm", []) :=
  ⟨by decide,
   all_default_composition_yields_base_name idAlias "adm" [eglOpt] defaultObj
     (by decide) (by decide)⟩

theorem vmaf_dictionary_set_ok {alloc : List Bool} {dict : Option VmafDict}
    {k v : String} {d' : Option VmafDict} {rest : List Bool}
    (h : vmaf_dictionary_set alloc dict k v = (some d', rest)) :
    d' = some ((dict.getD []) ++ [(k, v)]) := by
  cases alloc with
  | nil =>
    simp [vmaf_dictionary_set] at h
    exact h.1.symm
  | cons ok r =>
    cases ok with
    | true =>
      simp [vmaf_dictionary_set] at h
      exact h.1.symm
    | false => simp [vmaf_dictionary_set] at h

theorem batch_loop_all_or_nothing (fa : String → String)
    (opts : Option (List VmafOption)) (obj : Option ConfigObj) :
    ∀ (features : List String) (dict : Option VmafDict) (alloc : List Bool),
    batch_loop fa opts obj features dict alloc = .errPtr (-EINVAL) ∨
    ∃ d, batch_loop fa opts obj features dict alloc = .ok d ∧
      dictKeys d = dictKeys dict ++ features := by
  intro features
  induction features with
  | nil => intro dict alloc; right; exact ⟨dict, rfl, by simp⟩
  | cons f rest ih =>
    intro dict alloc
    rcases hfo : vmaf_feature_name_from_options fa (some f) opts obj alloc with ⟨r, alloc1⟩
    cases r with
    | none => left; simp [batch_loop, hfo]
    | some fn =>
      rcases hset : vmaf_dictionary_set alloc1 dict f fn with ⟨rs, alloc2⟩
      cases rs with
      | none => left; simp [batch_loop, hfo, hset]
      | some dict1 =>
        have hstep : batch_loop fa opts obj (f :: rest) dict alloc =
            batch_loop fa opts obj rest dict1 alloc2 := by
          simp [batch_loop, hfo, hset]
        have hd1 : dictKeys dict1 = dictKeys dict ++ [f] := by
          rw [vmaf_dictionary_set_ok hset]
          simp [dictKeys]
        rcases ih dict1 alloc2 with herr | ⟨d, hok, hk⟩
        · left; rw [hstep]; exact herr
        · right
          refine ⟨d, hstep.trans hok, ?_⟩
          rw [hk, hd1, List.append_assoc]
          rfl

/-- C9: the Batch Map Builder is all-or-nothing: for every input it either
reports failure — by the source's own convention of returning `-EINVAL`
coerced into the pointer slot, carrying no map at all — or returns a map
holding exactly one entry per provided metric name; a partially built map
is never returned. -/
theorem batch_all_or_nothing (fa : String → String) (features : List String)
    (opts : Option (List VmafOption)) (obj : Option ConfigObj)
    (alloc : List Bool) :
    vmaf_feature_name_dict_from_provided_features fa features opts obj alloc =
      .errPtr (-EINVAL) ∨
    ∃ d, vmaf_feature_name_dict_from_provided_features fa features opts obj alloc =
      .ok d ∧ dictKeys d = features := by
  have h := batch_loop_all_or_nothing fa opts obj features none alloc
  simpa [vmaf_feature_name_dict_from_provided_features, dictKeys] using h

theorem filterMap_singleton_shape {γ : Type} (nm : String)
    (f : String × String → Option γ) (hf : ∀ e, f e ≠ none → e.1 = nm) :
    ∀ (d : VmafDict), (d.map Prod.fst).Nodup →
    d.filterMap f = [] ∨ ∃ b, d.filterMap f = [b] := by
  intro d
  induction d with
  | nil => intro; left; rfl
  | cons e rest ih =>
    intro hnd
    rw [List.map_cons, List.nodup_cons] at hnd
    cases hfe : f e with
    | none =>
      rw [List.filterMap_cons_none hfe]
      exact ih hnd.2
    | some b =>
      right
      refine ⟨b, ?_⟩
      rw [List.filterMap_cons_some hfe]
      have hrest : rest.filterMap f = [] := by
        apply List.filterMap_eq_nil_iff.mpr
        intro a ha
        by_contra hfa
        have ha1 : a.1 = nm := hf a hfa
        have he1 : e.1 = nm := hf e (by rw [hfe]; exact Option.some_ne_none b)
        exact hnd.1 (by rw [he1, ← ha1]; exact List.mem_map_of_mem Prod.fst ha)
      rw [hrest]

theorem filterMap_perm_unique {γ : Type} (nm : String)
    (f : String × String → Option γ) (hf : ∀ e, f e ≠ none → e.1 = nm)
    (d1 d2 : VmafDict) (hperm : List.Perm d1 d2)
    (hnd : (d1.map Prod.fst).Nodup) : d1.filterMap f = d2.filterMap f := by
  have hp := hperm.filterMap f
  rcases filterMap_singleton_shape nm f hf d1 hnd with h0 | ⟨b, hb⟩
  · rw [h0] at hp ⊢
    exact (hp.symm.eq_nil).symm
  · rw [hb] at hp ⊢
    exact (List.perm_singleton.mp hp.symm).symm

theorem opt_dict_segment_perm (o : VmafOption) (d1 d2 : VmafDict)
    (hperm : List.Perm d1 d2) (hnd : (d1.map Prod.fst).Nodup) :
    opt_dict_segment o d1 = opt_dict_segment o d2 := by
  unfold opt_dict_segment
  congr 1
  refine filterMap_perm_unique (o.name.getD "") _ ?_ d1 d2 hperm hnd
  intro e hfe
  cases ho : o.name with
  | none => exact absurd (by simp [ho]) hfe
  | some nm =>
    have hcond : o.name = some e.1 ∧ o.featureParam = true := by
      by_contra hc
      exact hfe (if_neg hc)
    rw [ho] at hcond
    simpa using (Option.some_injective _ hcond.1).symm

/-- C5: the composed name depends only on the contents of the key/value
set, not on its insertion order: for any two dictionaries holding the same
pairs (unique keys, as the KeyValueSet invariant requires) in different
orders, the Dictionary Composer returns the same string — and that string
lists parameters in descriptor declaration order. -/
theorem compose_insertion_order_irrelevant (fa : String → String)
    (name : String) (opts : List VmafOption) (d1 d2 : VmafDict)
    (alloc : List Bool) (hperm : List.Perm d1 d2)
    (hnd : (d1.map Prod.fst).Nodup) :
    vmaf_feature_name_from_opts_dict fa name (some opts) (some d1) alloc =
      vmaf_feature_name_from_opts_dict fa name (some opts) (some d2) alloc ∧
    vmaf_feature_name_from_opts_dict fa name (some opts) (some d1) alloc =
      mallocCopy alloc (strTake (VMAF_FEATURE_NAME_DEFAULT_BUFFER_SIZE - 1)
        (fa name ++
          String.join ((opts_scan opts).map (fun o => opt_dict_segment o d1)))) := by
  constructor
  · have hseg : (fun o => opt_dict_segment o d1) =
        (fun o => opt_dict_segment o d2) := by
      funext o
      exact opt_dict_segment_perm o d1 d2 hperm hnd
    simp [vmaf_feature_name_from_opts_dict, composed_body, hseg]
  · rfl

theorem compose_insertion_order_irrelevant_witness :
    List.Perm [("adm_norm_view_dist", "5"), ("adm_enhn_gain_limit", "1.5")]
      [("adm_enhn_gain_limit", "1.5"), ("adm_norm_view_dist", "5")] ∧
    (vmaf_feature_name_from_opts_dict idAlias "adm" (some [eglOpt, nvdOpt])
       (some [("adm_norm_view_dist", "5"), ("adm_enhn_gain_limit", "1.5")]) [] =
     vmaf_feature_name_from_opts_dict idAlias "adm" (some [eglOpt, nvdOpt])
       (some [("adm_enhn_gain_limit", "1.5"), ("adm_norm_view_dist", "5")]) []) ∧
    vmaf_feature_name_from_opts_dict idAlias "adm" (some [eglOpt, nvdOpt])
       (some [("adm_norm_view_dist", "5"), ("adm_enhn_gain_limit", "1.5")]) [] =
      (some "adm_egl_1.5_nvd_5", []) :=
  ⟨by decide,
   (compose_insertion_order_irrelevant idAlias "adm" [eglOpt, nvdOpt]
      [("adm_norm_view_dist", "5"), ("adm_enhn_gain_limit", "1.5")]
      [("adm_enhn_gain_limit", "1.5"), ("adm_norm_view_dist", "5")] []
      (by decide) (by decide)).1,
   by decide⟩

theorem extract_pure_cons_none (obj : ConfigObj) (o : VmafOption)
    (rest : List VmafOption) (ho : o.name = none) :
    extract_pure obj (o :: rest) = [] := by
  rw [extract_pure, ho]

theorem extract_pure_cons_some (obj : ConfigObj) (o : VmafOption)
    (rest : List VmafOption) (nm : String) (ho : o.name = some nm) :
    extract_pure obj (o :: rest) =
      if o.featureParam = true ∧ ¬ option_is_default o obj = true then
        (nm, render_value o obj) :: extract_pure obj rest
      else extract_pure obj rest := by
  rw [extract_pure, ho]

theorem opts_scan_cons_none (o : VmafOption) (rest : List VmafOption)
    (ho : o.name = none) : opts_scan (o :: rest) = [] := by
  simp [opts_scan, List.takeWhile_cons, ho]

theorem opts_scan_cons_some (o : VmafOption) (rest : List VmafOption)
    (nm : String) (ho : o.name = some nm) :
    opts_scan (o :: rest) = o :: opts_scan rest := by
  simp [opts_scan, List.takeWhile_cons, ho]

theorem extract_keys_sub (obj : ConfigObj) :
    ∀ (l : List VmafOption) (nm : String),
    nm ∈ (extract_pure obj l).map Prod.fst →
    nm ∈ (opts_scan l).filterMap (fun o => o.name) := by
  intro l
  induction l with
  | nil => intro nm h; simp [extract_pure] at h
  | cons o rest ih =>
    intro nm h
    cases ho : o.name with
    | none => rw [extract_pure_cons_none obj o rest ho] at h; simp at h
    | some m =>
      rw [extract_pure_cons_some obj o rest m ho] at h
      rw [opts_scan_cons_some o rest m ho, List.filterMap_cons_some ho]
      by_cases hc : o.featureParam = true ∧ ¬ option_is_default o obj = true
      · rw [if_pos hc] at h
        rcases List.mem_map.mp h with ⟨p, hp, hp1⟩
        rcases List.mem_cons.mp hp with rfl | hp'
        · have hmn : m = nm := hp1
          subst hmn
          exact List.mem_cons_self _ _
        · exact List.mem_cons_of_mem m (ih nm (hp1 ▸ List.mem_map_of_mem Prod.fst hp'))
      · rw [if_neg hc] at h
        exact List.mem_cons_of_mem m (ih nm h)

theorem extract_includes_nondefault (obj : ConfigObj) :
    ∀ (l : List VmafOption) (opt : VmafOption) (nm : String),
    opt ∈ opts_scan l → opt.name = some nm → opt.featureParam = true →
    option_is_default opt obj = false →
    (nm, render_value opt obj) ∈ extract_pure obj l := by
  intro l
  induction l with
  | nil => intro opt nm hmem; simp [opts_scan] at hmem
  | cons o rest ih =>
    intro opt nm hmem hnm hfp hdef
    cases ho : o.name with
    | none => rw [opts_scan_cons_none o rest ho] at hmem; simp at hmem
    | some m =>
      rw [opts_scan_cons_some o rest m ho] at hmem
      rcases List.mem_cons.mp hmem with rfl | hmem'
      · have hm : m = nm := Option.some_injective _ (ho ▸ hnm)
        subst hm
        rw [extract_pure_cons_some obj opt rest m ho,
            if_pos ⟨hfp, by rw [hdef]; exact Bool.false_ne_true⟩]
        exact List.mem_cons_self _ _
      · have htail := ih opt nm hmem' hnm hfp hdef
        rw [extract_pure_cons_some obj o rest m ho]
        by_cases hc : o.featureParam = true ∧ ¬ option_is_default o obj = true
        · rw [if_pos hc]; exact List.mem_cons_of_mem _ htail
        · rw [if_neg hc]; exact htail

theorem extract_omits_default (obj : ConfigObj) :
    ∀ (l : List VmafOption) (opt : VmafOption) (nm : String),
    opt ∈ opts_scan l → opt.name = some nm → opt.featureParam = true →
    ((opts_scan l).filterMap (fun o => o.name)).Nodup →
    option_is_default opt obj = true →
    nm ∉ (extract_pure obj l).map Prod.fst := by
  intro l
  induction l with
  | nil => intro opt nm hmem; simp [opts_scan] at hmem
  | cons o rest ih =>
    intro opt nm hmem hnm hfp hnd hdef
    cases ho : o.name with
    | none => rw [opts_scan_cons_none o rest ho] at hmem; simp at hmem
    | some m =>
      rw [opts_scan_cons_some o rest m ho] at hmem
      rw [opts_scan_cons_some o rest m ho, List.filterMap_cons_some ho,
          List.nodup_cons] at hnd
      rcases List.mem_cons.mp hmem with rfl | hmem'
      · have hm : m = nm := Option.some_injective _ (ho ▸ hnm)
        subst hm
        have hc : ¬ (opt.featureParam = true ∧ ¬ option_is_default opt obj = true) := by
          rintro ⟨h1, h2⟩
          exact h2 hdef
        rw [extract_pure_cons_some obj opt rest m ho, if_neg hc]
        intro hin
        exact hnd.1 (extract_keys_sub obj rest m hin)
      · have htail := ih opt nm hmem' hnm hfp hnd.2 hdef
        have hnm_in : nm ∈ (opts_scan rest).filterMap (fun o => o.name) :=
          List.mem_filterMap.mpr ⟨opt, hmem', hnm⟩
        rw [extract_pure_cons_some obj o rest m ho]
        by_cases hc : o.featureParam = true ∧ ¬ option_is_default o obj = true
        · rw [if_pos hc]
          intro hin
          rcases List.mem_map.mp hin with ⟨p, hp, hp1⟩
          rcases List.mem_cons.mp hp with rfl | hp'
          · have hmn : m = nm := hp1
            rw [← hmn] at hnm_in
            exact hnd.1 hnm_in
          · exact htail (hp1 ▸ List.mem_map_of_mem Prod.fst hp')
        · rw [if_neg hc]
          exact htail

/-- C6: for every naming-relevant descriptor (before the sentinel, with
descriptor names unique), `option_is_default` is exactly the kind-matched
exact-equality comparison of the configuration field at the descriptor's
offset against the declared default; when they are equal the parameter is
omitted from the extracted set that feeds the canonical name, and when
they differ the parameter is included with its rendered value — and the
real scan loop produces exactly that set. -/
theorem default_suppression (opts : List VmafOption) (obj : ConfigObj)
    (opt : VmafOption) (nm : String) (hmem : opt ∈ opts_scan opts)
    (hnm : opt.name = some nm) (hfp : opt.featureParam = true)
    (hnd : ((opts_scan opts).filterMap (fun o => o.name)).Nodup) :
    (option_is_default opt obj = true ↔
      (match opt.type with
       | .bool => opt.default_b = obj.readBool opt.offset
       | .int => opt.default_i = obj.readInt opt.offset
       | .double => opt.default_d.num * ((obj.readDouble opt.offset).den : Int) =
           (obj.readDouble opt.offset).num * (opt.default_d.den : Int))) ∧
    (option_is_default opt obj = true →
      nm ∉ (extract_pure obj opts).map Prod.fst) ∧
    (option_is_default opt obj = false →
      (nm, render_value opt obj) ∈ extract_pure obj opts) ∧
    extract_loop obj opts none [] =
      (some (dict_app none (extract_pure obj opts)), []) := by
  refine ⟨?_, ?_, ?_, extract_loop_ok obj opts none⟩
  · cases htype : opt.type <;>
      simp [option_is_default, htype, dblEq, beq_iff_eq]
  · intro hdef
    exact extract_omits_default obj opts opt nm hmem hnm hfp hnd hdef
  · intro hdef
    exact extract_includes_nondefault obj opts opt nm hmem hnm hfp hdef

theorem default_suppression_witness :
    (option_is_default eglOpt gainObj = false) ∧
    ("adm_enhn_gain_limit", "1.5") ∈ extract_pure gainObj [eglOpt] ∧
    (option_is_default eglOpt defaultObj = true) ∧
    "adm_enhn_gain_limit" ∉ (extract_pure defaultObj [eglOpt]).map Prod.fst ∧
    vmaf_feature_name_from_options idAlias (some "adm") (some [eglOpt])
      (some gainObj) [] = (some "adm_egl_1.5", []) := by
  refine ⟨by decide, ?_, by decide, ?_, by decide⟩
  · have h := (default_suppression [eglOpt] gainObj eglOpt "adm_enhn_gain_limit"
      (by decide) rfl rfl (by decide)).2.2.1 (by decide)
    have hrv : render_value eglOpt gainObj = "1.5" := by decide
    rwa [hrv] at h
  · exact (default_suppression [eglOpt] defaultObj eglOpt "adm_enhn_gain_limit"
      (by decide) rfl rfl (by decide)).2.1 (by decide)
